import Mathlib

/-!
# Verification of `bmp2map` (src/roms/ppu/bkg/bmp2map.cpp)

Shallow embedding of the BMP-to-map converter.  The source program reads a
whole file into a `malloc`ed byte buffer `filecontents`, decodes five header
fields with `hiread`, and (when `bitcount == 8`) copies the pixel rows
bottom-up into an output buffer which is then remapped byte-by-byte and
written out.

Modelling choices:

* The machine memory reachable through the `filecontents` pointer is a total
  function `mem : Int → Nat` giving the byte at each (possibly negative,
  possibly past-the-end) offset from the start of the buffer.  The C code
  performs no bounds checks, so an out-of-range index simply reads whatever
  byte sits at that address; the total function models exactly that.  The
  length of the actual file is not part of the state the code consults.
* C `int` arithmetic is modelled on `Int`.  `hiread` accumulates into an
  `int` via `k += unsigned int(..) << (8*i)`, i.e. the sum is reduced
  modulo 2^32 and reinterpreted as a signed 32-bit value; `toSigned32`
  performs that reinterpretation.  (Intermediate wrap-around at each `+=`
  agrees with reducing the final sum, since `Nat.add` commutes with `% 2^32`.)
* C `/` on `int` truncates toward zero, which is `Int.tdiv`.
  Division by zero is undefined behaviour that traps on the target platform;
  the pipeline models reaching `(bytebuffer - width*height) / height` with
  `height = 0` as the distinct outcome `ConvError.divByZero` (a crash, not a
  diagnosed rejection — the only diagnosed rejection in the source is the
  `bitcount != 8` message).
* The output file written by `write(outputhandle, outputcontents, outputlen)`
  is modelled as the list of bytes the copy loop deposits, remapped in place
  by the final loop.
-/

/-- Reinterpret a (possibly large) accumulated sum as the signed 32-bit
value a C `int` accumulator would hold: reduce modulo `2^32`, then subtract
`2^32` when the high bit is set. -/
def toSigned32 (s : Nat) : Int :=
  if s % 2 ^ 32 < 2 ^ 31 then ((s % 2 ^ 32 : Nat) : Int)
  else ((s % 2 ^ 32 : Nat) : Int) - 2 ^ 32

/-- `int hiread(unsigned char *contents, int offset, int length)`:
`k += unsigned int(contents[offset+i]) << (8 * i)` for `i in 0..length-1`,
with `k` a signed 32-bit `int`; returns `k`. -/
def hiread (contents : Int → Nat) (offset : Int) (length : Nat) : Int :=
  toSigned32 (((List.range length).map fun i : Nat => contents (offset + (i : Int)) * 2 ^ (8 * i)).sum)

/-- The spec's Header Reader contract (§4.1), for comparison with `hiread`:
"interpret the `length` bytes beginning at `offset` as an unsigned
little-endian integer", i.e. `sum byte[offset+i] * 2^(8*i)`. -/
def leValue (contents : Int → Nat) (offset : Int) (length : Nat) : Nat :=
  ((List.range length).map fun i : Nat => contents (offset + (i : Int)) * 2 ^ (8 * i)).sum

/-- The remapping applied in place to every output byte:
`0xff ↦ 0x00`, `0x00 ↦ 0x01`, anything else `↦ 0x02`. -/
def symMap (b : Nat) : Nat :=
  if b = 0xff then 0x00 else if b = 0x00 then 0x01 else 0x02

/-- How a run of the converter can fail.  `unsupportedFormat` is the
source's `"needs to be 256 colors!"` early return; `divByZero` is the
crash from `(bytebuffer - (width * height)) / height` when `height = 0`. -/
inductive ConvError where
  | unsupportedFormat
  | divByZero
deriving DecidableEq

/-- The copy loop of `main`: for `h = 1..height` (outer, modelled by
`i = h - 1 ∈ range height.toNat`), starting at
`offset = pixelslen - width + paintoffset - wastedpixelsperline` and
decreasing by `width + wastedpixelsperline` each iteration, append the
`width` bytes `filecontents[offset + w]`, `w = 0..width-1`. -/
def extract (mem : Int → Nat) (paintoffset bytebuffer width height wastedpixelsperline : Int) :
    List Nat :=
  (List.range height.toNat).flatMap fun i : Nat =>
    (List.range width.toNat).map fun w : Nat =>
      mem (bytebuffer - width + paintoffset - wastedpixelsperline
            - (i : Int) * (width + wastedpixelsperline) + (w : Int))

/-- The whole conversion pipeline of `main`, from the loaded file contents to
the byte sequence written to the output file (or the failure outcome).
Variable names follow the source: `paintoffset = hiread(.., 0xa, 4)`,
`width = hiread(.., 0x12, 4)`, `height = hiread(.., 0x16, 4)`,
`bitcount = hiread(.., 0x1c, 2)`, `bytebuffer = hiread(.., 0x22, 4)`,
`pixelslen = bytebuffer`,
`wastedpixelsperline = (bytebuffer - (width * height)) / height`. -/
def bmp2map (mem : Int → Nat) : Except ConvError (List Nat) :=
  let paintoffset := hiread mem 0xa 4
  let width := hiread mem 0x12 4
  let height := hiread mem 0x16 4
  let bitcount := hiread mem 0x1c 2
  let bytebuffer := hiread mem 0x22 4
  if bitcount ≠ 8 then Except.error ConvError.unsupportedFormat
  else if height = 0 then Except.error ConvError.divByZero
  else
    let wastedpixelsperline := (bytebuffer - width * height).tdiv height
    Except.ok ((extract mem paintoffset bytebuffer width height wastedpixelsperline).map symMap)

/-- Row `r` (0-indexed) of a row-major buffer whose rows have `width` bytes. -/
def outRow (out : List Nat) (width r : Nat) : List Nat :=
  (out.drop (r * width)).take width

/-- The spec's row-start formula (§4.2), for comparison with the offsets the
code computes:
`row_start(h) = pixel_data_offset + pixel_data_size - width - padding_per_row
 - (h-1) * (width + padding_per_row)`. -/
def specRowStart (pdo pds w pad hh : Int) : Int :=
  pdo + pds - w - pad - (hh - 1) * (w + pad)

/-- A concrete well-formed input file, the spec's §8 scenario: a 2×2 8bpp
bitmap with `pixel_data_offset = 38`, no row padding
(`pixel_data_size = 4 = height * (width + 0)`), pixel data stored
bottom row first: `[0xFF, 0x10]` then `[0x00, 0x00]`. -/
def exFile : List Nat :=
  [0, 0, 0, 0, 0, 0, 0, 0, 0, 0,
   38, 0, 0, 0, 0, 0, 0, 0,
   2, 0, 0, 0,
   2, 0, 0, 0,
   0, 0, 8, 0,
   0, 0, 0, 0,
   4, 0, 0, 0,
   0xff, 0x10, 0x00, 0x00]

/-- The §8 scenario file as a memory (bytes past the end of the file read 0). -/
def exMem : Int → Nat := fun a => exFile.getD a.toNat 0

/-- Concrete memory for the `height = 0` failing input: a file whose header
has `bits_per_pixel = 8` and `height = 0` (all other bytes 0). -/
def memHeightZero : Int → Nat := fun a => if a = 0x1c then 8 else 0

/-- Shared bytes of the two 30-byte files demonstrating the missing bounds
check: `width = 1`, `height = 2`, `bits_per_pixel = 8`,
`pixel_data_offset = 0`, and the in-file pixel byte at offset 2 is `5`.
The file is 30 bytes long, so the 4 bytes of the `pixel_data_size` field at
offsets `0x22..0x25` lie entirely PAST the end of the file. -/
def baseC6 : Int → Nat := fun a =>
  if a = 0x12 then 1 else if a = 0x16 then 2 else if a = 2 then 5 else
  if a = 0x1c then 8 else 0

/-- First memory: the byte at the out-of-file address `0x22` happens to be 2. -/
def mem1C6 : Int → Nat := fun a => if a = 0x22 then 2 else baseC6 a

/-- Second memory: the byte at the out-of-file address `0x22` happens to be 4. -/
def mem2C6 : Int → Nat := fun a => if a = 0x22 then 4 else baseC6 a

/-- Concrete 4-byte buffer `[0x00, 0x00, 0x00, 0x80]` whose unsigned
little-endian value is `2^31`. -/
def bufMsb : Int → Nat := fun a => if a = 3 then 128 else 0

/-- Constant memory, every byte `0x80`. -/
def memAll80 : Int → Nat := fun _ => 128

/-- Memory of all zero bytes. -/
def memZero : Int → Nat := fun _ => 0

/-- Memory agreeing with `memZero` on the two `bits_per_pixel` bytes but
differing elsewhere. -/
def memSeven : Int → Nat := fun a => if a = 0 then 7 else 0

instance {e a : Type} [DecidableEq e] [DecidableEq a] : DecidableEq (Except e a) := fun x y =>
  match x, y with
  | .ok u, .ok v =>
      if h : u = v then isTrue (by rw [h]) else isFalse (fun hc => by cases hc; exact h rfl)
  | .error u, .error v =>
      if h : u = v then isTrue (by rw [h]) else isFalse (fun hc => by cases hc; exact h rfl)
  | .ok _, .error _ => isFalse (fun hc => by cases hc)
  | .error _, .ok _ => isFalse (fun hc => by cases hc)

theorem symMap_cases (b : Nat) : symMap b = 0x00 ∨ symMap b = 0x01 ∨ symMap b = 0x02 := by
  unfold symMap
  split
  · exact Or.inl rfl
  split
  · exact Or.inr (Or.inl rfl)
  · exact Or.inr (Or.inr rfl)

theorem hiread_eq_toSigned32_leValue (mem : Int → Nat) (off : Int) (len : Nat) :
    hiread mem off len = toSigned32 (leValue mem off len) := rfl

theorem toSigned32_of_lt (s : Nat) (hs : s < 2 ^ 32) :
    toSigned32 s = if s < 2 ^ 31 then (s : Int) else (s : Int) - 2 ^ 32 := by
  unfold toSigned32
  rw [Nat.mod_eq_of_lt hs]

theorem leValue_succ (mem : Int → Nat) (off : Int) (n : Nat) :
    leValue mem off (n + 1) = leValue mem off n + mem (off + (n : Int)) * 2 ^ (8 * n) := by
  unfold leValue
  rw [List.range_succ, List.map_append, List.sum_append]
  simp

theorem leValue_lt (mem : Int → Nat) (off : Int) (len : Nat)
    (hB : ∀ i : Nat, i < len → mem (off + (i : Int)) < 256) :
    leValue mem off len < 2 ^ (8 * len) := by
  induction len with
  | zero => simp [leValue]
  | succ n ih =>
    rw [leValue_succ]
    have h1 : leValue mem off n < 2 ^ (8 * n) :=
      ih fun i hi => hB i (Nat.lt_succ_of_lt hi)
    have h2 : mem (off + (n : Int)) ≤ 255 :=
      Nat.lt_succ_iff.mp (hB n (Nat.lt_succ_self n))
    have h3 : mem (off + (n : Int)) * 2 ^ (8 * n) ≤ 255 * 2 ^ (8 * n) :=
      Nat.mul_le_mul_right _ h2
    have h4 : 2 ^ (8 * (n + 1)) = 256 * 2 ^ (8 * n) := by
      rw [Nat.mul_succ, Nat.pow_add]
      ring
    omega

theorem flatMap_range_length (f : Nat → List Nat) (L : Nat) (hf : ∀ i, (f i).length = L) :
    ∀ n : Nat, ((List.range n).flatMap f).length = n * L := by
  intro n
  induction n with
  | zero => simp
  | succ m ih =>
    rw [List.range_succ, List.flatMap_append, List.length_append, ih]
    simp [hf m, Nat.succ_mul]

theorem flatMap_range_row (f : Nat → List Nat) (L : Nat) (hf : ∀ i, (f i).length = L) :
    ∀ n r : Nat, r < n → (((List.range n).flatMap f).drop (r * L)).take L = f r := by
  intro n
  induction n with
  | zero => intro r hr; omega
  | succ m ih =>
    intro r hr
    rw [List.range_succ, List.flatMap_append]
    have hlen : ((List.range m).flatMap f).length = m * L := flatMap_range_length f L hf m
    rcases Nat.lt_or_ge r m with hcase | hcase
    · have hle : r * L + L ≤ m * L := by
        have h1 : (r + 1) * L ≤ m * L := Nat.mul_le_mul_right L hcase
        rw [Nat.add_mul, Nat.one_mul] at h1
        exact h1
      rw [List.drop_append_of_le_length (by omega)]
      rw [List.take_append_of_le_length (by rw [List.length_drop]; omega)]
      exact ih r hcase
    · have hrm : r = m := by omega
      subst hrm
      have hdrop : r * L = ((List.range r).flatMap f).length := by omega
      rw [hdrop, List.drop_left]
      have : ([r].flatMap f) = f r := by simp
      rw [this, ← hf r, List.take_length]

theorem bmp2map_ok (mem : Int → Nat) (hbit : hiread mem 0x1c 2 = 8)
    (hh : hiread mem 0x16 4 ≠ 0) :
    bmp2map mem = Except.ok
      ((extract mem (hiread mem 0xa 4) (hiread mem 0x22 4) (hiread mem 0x12 4)
          (hiread mem 0x16 4)
          ((hiread mem 0x22 4 - hiread mem 0x12 4 * hiread mem 0x16 4).tdiv
            (hiread mem 0x16 4))).map symMap) := by
  unfold bmp2map
  rw [if_neg (not_not_intro hbit), if_neg hh]

theorem bmp2map_unsupported_iff (mem : Int → Nat) :
    bmp2map mem = Except.error ConvError.unsupportedFormat ↔ hiread mem 0x1c 2 ≠ 8 := by
  unfold bmp2map
  by_cases hbit : hiread mem 0x1c 2 = 8
  · rw [if_neg (not_not_intro hbit)]
    by_cases hh : hiread mem 0x16 4 = 0
    · rw [if_pos hh]
      simp [hbit]
    · rw [if_neg hh]
      simp [hbit]
  · rw [if_pos hbit]
    simp [hbit]

/-- Claim C4: for every input whose decoded `bits_per_pixel` field (2 bytes at
offset 0x1C) is not 8, the conversion aborts with the reported
unsupported-format error and produces no output; no extraction or remapping is
performed. -/
theorem C4_bad_bitcount_rejected (mem : Int → Nat) (hb : hiread mem 0x1c 2 ≠ 8) :
    bmp2map mem = Except.error ConvError.unsupportedFormat := by
  unfold bmp2map
  rw [if_pos hb]

/-- Witness for C4: the all-zero file decodes `bits_per_pixel = 0 ≠ 8` and is
rejected with the unsupported-format error. -/
theorem C4_bad_bitcount_rejected_witness :
    bmp2map memZero = Except.error ConvError.unsupportedFormat :=
  C4_bad_bitcount_rejected memZero (by decide)

/-- Counterexample to C8 as stated: the Symbol Mapping is not idempotent at
`0xFF`, since `0xFF ↦ 0x00 ↦ 0x01`. -/
theorem C8_not_idempotent_at_ff : symMap (symMap 0xff) ≠ symMap 0xff := by decide

/-- Claim C8 (amended): the Symbol Mapping is idempotent at every byte other
than `0x00` and `0xFF` (where it yields `0x02`, a fixed point); at `0x00` and
`0xFF` idempotence fails (`0xFF ↦ 0x00 ↦ 0x01` and `0x00 ↦ 0x01 ↦ 0x02`). -/
theorem C8_symMap_idempotent_away_from_0_and_ff (b : Nat) (h0 : b ≠ 0x00) (hf : b ≠ 0xff) :
    symMap (symMap b) = symMap b := by
  unfold symMap
  rw [if_neg hf, if_neg h0]
  norm_num

/-- Witness for the amended C8 at the byte `0x10`. -/
theorem C8_symMap_idempotent_witness : symMap (symMap 0x10) = symMap 0x10 :=
  C8_symMap_idempotent_away_from_0_and_ff 0x10 (by decide) (by decide)

/-- Evaluation of the code at the C5 failing input: a file with
`bits_per_pixel = 8` but `height = 0` passes the only validation in the
program (the bitcount check) and reaches the
`(bytebuffer - (width * height)) / height` computation, which divides by
zero — there is no reported-error rejection before that division. -/
theorem C5_height_zero_reaches_division :
    hiread memHeightZero 0x1c 2 = 8 ∧ hiread memHeightZero 0x16 4 = 0 ∧
    bmp2map memHeightZero = Except.error ConvError.divByZero := by decide

/-- Evaluation of the code at the C6 failing input: two 30-byte files with
identical contents (`width = 1`, `height = 2`, `bits_per_pixel = 8`,
`pixel_data_offset = 0`) whose surrounding memory differs only at address
`0x22` — past the end of the file.  `hiread` of the `pixel_data_size` field at
`0x22` returns normally in both runs (no fatal bounds error) with values taken
from outside the buffer, and the conversion then completes without aborting,
producing two different outputs.  No read is bounds-checked. -/
theorem C6_reads_past_end_of_buffer :
    (∀ a : Nat, a < 30 → mem1C6 (a : Int) = mem2C6 (a : Int)) ∧
    hiread mem1C6 0x22 4 = 2 ∧ hiread mem2C6 0x22 4 = 4 ∧
    bmp2map mem1C6 = Except.ok [0x01, 0x01] ∧
    bmp2map mem2C6 = Except.ok [0x02, 0x01] := by decide

/-- Claim C10: the accept/reject decision of the format check depends only on
the two input bytes at offsets 0x1C and 0x1D; runs on any two memories that
agree on those two bytes either both abort with the unsupported-format error
or both proceed. -/
theorem C10_format_check_two_bytes (mem1 mem2 : Int → Nat)
    (h1 : mem1 0x1c = mem2 0x1c) (h2 : mem1 0x1d = mem2 0x1d) :
    (bmp2map mem1 = Except.error ConvError.unsupportedFormat ↔
      bmp2map mem2 = Except.error ConvError.unsupportedFormat) := by
  have key : hiread mem1 0x1c 2 = hiread mem2 0x1c 2 := by
    unfold hiread
    norm_num [List.range_succ]
    rw [h1, h2]
  rw [bmp2map_unsupported_iff, bmp2map_unsupported_iff, key]

/-- Witness for C10: two memories agreeing on bytes 0x1C–0x1D (both decode
`bits_per_pixel = 0`) but differing at byte 0; both runs are rejected. -/
theorem C10_format_check_two_bytes_witness :
    (bmp2map memZero = Except.error ConvError.unsupportedFormat ↔
      bmp2map memSeven = Except.error ConvError.unsupportedFormat) :=
  C10_format_check_two_bytes memZero memSeven (by decide) (by decide)

theorem leValue_four (mem : Int → Nat) (off : Int) :
    leValue mem off 4 =
      mem (off + 0) + mem (off + 1) * 2 ^ 8 + mem (off + 2) * 2 ^ 16 +
        mem (off + 3) * 2 ^ 24 := by
  norm_num [leValue, List.range_succ]
  ring

/-- Counterexample to C7 as stated: on the 4-byte buffer
`[0x00, 0x00, 0x00, 0x80]` (offset 0, length 4, `offset + length` within the
buffer) the unsigned little-endian interpretation is `2^31`, but `hiread`
returns `-2^31`, not the unsigned value. -/
theorem C7_not_unsigned_at_msb :
    leValue bufMsb 0 4 = 2 ^ 31 ∧ hiread bufMsb 0 4 = -(2 ^ 31) ∧
      hiread bufMsb 0 4 ≠ (leValue bufMsb 0 4 : Int) := by decide

/-- Claim C7 (amended): for every byte sequence, offset, and length in 1..4
(bytes being < 256), `hiread` returns the unsigned little-endian
interpretation of the `length` bytes at `offset` reduced to the signed 32-bit
range: it equals the unsigned value `sum byte[offset+i] * 2^(8*i)` whenever
that value is below `2^31` (always the case for length ≤ 3), and that value
minus `2^32` otherwise (possible only for length 4).  It is a pure function
of its inputs. -/
theorem C7_hiread_le_signed (mem : Int → Nat) (off : Int) (len : Nat)
    (hlen : len ≤ 4) (hB : ∀ i : Nat, i < len → mem (off + (i : Int)) < 256) :
    (leValue mem off len < 2 ^ 31 → hiread mem off len = (leValue mem off len : Int)) ∧
    (2 ^ 31 ≤ leValue mem off len →
      hiread mem off len = (leValue mem off len : Int) - 2 ^ 32) := by
  have hlt : leValue mem off len < 2 ^ 32 := by
    have h1 : leValue mem off len < 2 ^ (8 * len) := leValue_lt mem off len hB
    have h2 : (2 : Nat) ^ (8 * len) ≤ 2 ^ 32 :=
      Nat.pow_le_pow_right (by norm_num) (by omega)
    omega
  rw [hiread_eq_toSigned32_leValue, toSigned32_of_lt _ hlt]
  constructor
  · intro hsmall
    rw [if_pos hsmall]
  · intro hbig
    rw [if_neg (by omega)]

/-- Witness for the amended C7: a 2-byte read on the `[0,0,0,0x80]` buffer
stays below `2^31` and `hiread` returns the unsigned value. -/
theorem C7_hiread_le_signed_witness : hiread bufMsb 0 2 = (leValue bufMsb 0 2 : Int) :=
  (C7_hiread_le_signed bufMsb 0 2 (by decide) (by decide)).1 (by decide)

/-- Claim C9: `hiread` accumulates into a signed 32-bit integer, so whenever
the most significant byte of a 4-byte read is at least `0x80`, the returned
value is the unsigned little-endian value minus `2^32`, hence negative.
Consequently none of the 4-byte header fields `main` decodes is guaranteed
non-negative. -/
theorem C9_hiread_msb_negative (mem : Int → Nat) (off : Int)
    (hB : ∀ i : Nat, i < 4 → mem (off + (i : Int)) < 256)
    (hmsb : 128 ≤ mem (off + 3)) :
    hiread mem off 4 = (leValue mem off 4 : Int) - 2 ^ 32 ∧ hiread mem off 4 < 0 := by
  have hlt : leValue mem off 4 < 2 ^ 32 := by
    have h1 : leValue mem off 4 < 2 ^ (8 * 4) := leValue_lt mem off 4 hB
    omega
  have hbig : 2 ^ 31 ≤ leValue mem off 4 := by
    rw [leValue_four]
    have h3 : 128 * 2 ^ 24 ≤ mem (off + 3) * 2 ^ 24 := Nat.mul_le_mul_right _ hmsb
    omega
  have heq : hiread mem off 4 = (leValue mem off 4 : Int) - 2 ^ 32 := by
    rw [hiread_eq_toSigned32_leValue, toSigned32_of_lt _ hlt, if_neg (by omega)]
  refine ⟨heq, ?_⟩
  rw [heq]
  have : ((leValue mem off 4 : Nat) : Int) < ((2 ^ 32 : Nat) : Int) := by
    exact_mod_cast hlt
  omega

/-- Witness for C9: on the constant buffer of `0x80` bytes, the 4-byte read at
offset 0 returns the unsigned value minus `2^32`, a negative number. -/
theorem C9_hiread_msb_negative_witness :
    hiread memAll80 0 4 = (leValue memAll80 0 4 : Int) - 2 ^ 32 ∧ hiread memAll80 0 4 < 0 :=
  C9_hiread_msb_negative memAll80 0 (by decide) (by decide)

/-- Claim C1: for every input accepted by the format check (and whose decoded
height is nonzero, so that the run reaches the remapping pass at all), the
conversion succeeds, the output is exactly the copied raw pixel bytes remapped
pointwise by the fixed rule `symMap` (`0xFF ↦ 0x00`, `0x00 ↦ 0x01`,
else `0x02`), and every byte of the output lies in `{0x00, 0x01, 0x02}`. -/
theorem C1_remap_closure (mem : Int → Nat) (hbit : hiread mem 0x1c 2 = 8)
    (hh : hiread mem 0x16 4 ≠ 0) :
    ∃ out, bmp2map mem = Except.ok out ∧
      out = (extract mem (hiread mem 0xa 4) (hiread mem 0x22 4) (hiread mem 0x12 4)
              (hiread mem 0x16 4)
              ((hiread mem 0x22 4 - hiread mem 0x12 4 * hiread mem 0x16 4).tdiv
                (hiread mem 0x16 4))).map symMap ∧
      ∀ b ∈ out, b = 0x00 ∨ b = 0x01 ∨ b = 0x02 := by
  refine ⟨_, bmp2map_ok mem hbit hh, rfl, ?_⟩
  intro b hb
  rcases List.mem_map.1 hb with ⟨a, _, rfl⟩
  exact symMap_cases a

/-- Witness for C1 at the §8 scenario file. -/
theorem C1_remap_closure_witness :
    ∃ out, bmp2map exMem = Except.ok out ∧
      out = (extract exMem (hiread exMem 0xa 4) (hiread exMem 0x22 4) (hiread exMem 0x12 4)
              (hiread exMem 0x16 4)
              ((hiread exMem 0x22 4 - hiread exMem 0x12 4 * hiread exMem 0x16 4).tdiv
                (hiread exMem 0x16 4))).map symMap ∧
      ∀ b ∈ out, b = 0x00 ∨ b = 0x01 ∨ b = 0x02 :=
  C1_remap_closure exMem (by decide) (by decide)

/-- Claim C3: for every valid 8-bit BMP input (positive width and height,
`pixel_data_size = height * (width + padding)` for some padding ≥ 0), the
output buffer handed to the sink has length exactly `width * height` — one
symbol per pixel — and every byte of it is the remapped value of a source byte
at a within-row offset (column `c < width` of some row), never a padding
byte. -/
theorem C3_output_length (mem : Int → Nat) (po w h p : Int)
    (hw : 0 < w) (hh : 0 < h) (hp : 0 ≤ p)
    (hpo : hiread mem 0xa 4 = po) (hwidth : hiread mem 0x12 4 = w)
    (hheight : hiread mem 0x16 4 = h) (hbit : hiread mem 0x1c 2 = 8)
    (hbb : hiread mem 0x22 4 = h * (w + p)) :
    ∃ out, bmp2map mem = Except.ok out ∧
      out.length = (w * h).toNat ∧
      ∀ b ∈ out, ∃ i c : Nat, i < h.toNat ∧ c < w.toNat ∧
        b = symMap (mem (h * (w + p) - w + po - p - (i : Int) * (w + p) + (c : Int))) := by
  have hwpl : (hiread mem 0x22 4 - hiread mem 0x12 4 * hiread mem 0x16 4).tdiv
      (hiread mem 0x16 4) = p := by
    rw [hbb, hwidth, hheight]
    have harith : h * (w + p) - w * h = h * p := by ring
    rw [harith, Int.mul_tdiv_cancel_left p (ne_of_gt hh)]
  have hout := bmp2map_ok mem hbit (by rw [hheight]; exact ne_of_gt hh)
  rw [hwpl, hpo, hwidth, hheight, hbb] at hout
  refine ⟨_, hout, ?_, ?_⟩
  · rw [List.length_map]
    unfold extract
    rw [flatMap_range_length _ w.toNat (fun i => by simp) h.toNat]
    have hwn : ((w.toNat : Int)) = w := Int.toNat_of_nonneg hw.le
    have hhn : ((h.toNat : Int)) = h := Int.toNat_of_nonneg hh.le
    rw [← hwn, ← hhn, ← Nat.cast_mul, Int.toNat_natCast]
    exact Nat.mul_comm _ _
  · intro b hb
    rcases List.mem_map.1 hb with ⟨a, ha, rfl⟩
    unfold extract at ha
    rcases List.mem_flatMap.1 ha with ⟨i, hi, hrowmem⟩
    rcases List.mem_map.1 hrowmem with ⟨c, hc, rfl⟩
    exact ⟨i, c, List.mem_range.1 hi, List.mem_range.1 hc, rfl⟩

/-- Witness for C3 at the §8 scenario file (width 2, height 2, padding 0). -/
theorem C3_output_length_witness :
    ∃ out, bmp2map exMem = Except.ok out ∧
      out.length = ((2 : Int) * 2).toNat ∧
      ∀ b ∈ out, ∃ i c : Nat, i < (2 : Int).toNat ∧ c < (2 : Int).toNat ∧
        b = symMap (exMem ((2 : Int) * (2 + 0) - 2 + 38 - 0 - (i : Int) * (2 + 0) + (c : Int))) :=
  C3_output_length exMem 38 2 2 0 (by decide) (by decide) (by decide) (by decide)
    (by decide) (by decide) (by decide) (by decide)

theorem extract_map_symMap (mem : Int → Nat) (po bb w p h : Int) :
    (extract mem po bb w h p).map symMap =
      (List.range h.toNat).flatMap fun i : Nat =>
        (List.range w.toNat).map fun c : Nat =>
          symMap (mem (bb - w + po - p - (i : Int) * (w + p) + (c : Int))) := by
  unfold extract
  simp only [List.map_flatMap, List.map_map]
  rfl

/-- Claim C2: for every accepted input with height ≥ 1 whose header fields are
consistent (`pixel_data_size = height * (width + padding)`), the extractor
reads logical row `h` (1-indexed) of the source starting at the spec's byte
offset `row_start(h) = pixel_data_offset + pixel_data_size - width - padding
- (h-1) * (width + padding)`, copying exactly `width` bytes per row; hence
output row 0 is the remapped last stored source row (which begins at
`pixel_data_offset + (height-1) * (width+padding)`) and output row
`height - 1` is the remapped first stored source row (which begins at
`pixel_data_offset`). -/
theorem C2_row_order (mem : Int → Nat) (po w h p : Int)
    (hw : 0 < w) (hh : 0 < h) (hp : 0 ≤ p)
    (hpo : hiread mem 0xa 4 = po) (hwidth : hiread mem 0x12 4 = w)
    (hheight : hiread mem 0x16 4 = h) (hbit : hiread mem 0x1c 2 = 8)
    (hbb : hiread mem 0x22 4 = h * (w + p)) :
    ∃ out, bmp2map mem = Except.ok out ∧
      (∀ r : Nat, r < h.toNat →
        outRow out w.toNat r =
          (List.range w.toNat).map fun c : Nat =>
            symMap (mem (specRowStart po (h * (w + p)) w p ((r : Int) + 1) + (c : Int)))) ∧
      outRow out w.toNat 0 =
        ((List.range w.toNat).map fun c : Nat =>
          symMap (mem (po + (h - 1) * (w + p) + (c : Int)))) ∧
      outRow out w.toNat (h.toNat - 1) =
        ((List.range w.toNat).map fun c : Nat => symMap (mem (po + (c : Int)))) := by
  have hwpl : (hiread mem 0x22 4 - hiread mem 0x12 4 * hiread mem 0x16 4).tdiv
      (hiread mem 0x16 4) = p := by
    rw [hbb, hwidth, hheight]
    have harith : h * (w + p) - w * h = h * p := by ring
    rw [harith, Int.mul_tdiv_cancel_left p (ne_of_gt hh)]
  have hout := bmp2map_ok mem hbit (by rw [hheight]; exact ne_of_gt hh)
  rw [hwpl, hpo, hwidth, hheight, hbb] at hout
  have key : ∀ r : Nat, r < h.toNat →
      outRow ((extract mem po (h * (w + p)) w h p).map symMap) w.toNat r =
        (List.range w.toNat).map fun c : Nat =>
          symMap (mem (h * (w + p) - w + po - p - (r : Int) * (w + p) + (c : Int))) := by
    intro r hr
    unfold outRow
    rw [extract_map_symMap]
    exact flatMap_range_row _ w.toNat (fun i => by simp) h.toNat r hr
  have htpos : 0 < h.toNat := by omega
  refine ⟨_, hout, ?_, ?_, ?_⟩
  · intro r hr
    rw [key r hr]
    have harith : h * (w + p) - w + po - p - (r : Int) * (w + p) =
        specRowStart po (h * (w + p)) w p ((r : Int) + 1) := by
      unfold specRowStart
      ring
    rw [harith]
  · rw [key 0 htpos]
    have harith : h * (w + p) - w + po - p - ((0 : Nat) : Int) * (w + p) =
        po + (h - 1) * (w + p) := by
      push_cast
      ring
    rw [harith]
  · rw [key (h.toNat - 1) (by omega)]
    have hcast : ((h.toNat - 1 : Nat) : Int) = h - 1 := by omega
    have harith : h * (w + p) - w + po - p - ((h.toNat - 1 : Nat) : Int) * (w + p) = po := by
      rw [hcast]
      ring
    rw [harith]

/-- Witness for C2 at the §8 scenario file: width 2, height 2, padding 0,
`pixel_data_offset = 38`, `pixel_data_size = 4`. -/
theorem C2_row_order_witness :
    ∃ out, bmp2map exMem = Except.ok out ∧
      (∀ r : Nat, r < (2 : Int).toNat →
        outRow out (2 : Int).toNat r =
          (List.range (2 : Int).toNat).map fun c : Nat =>
            symMap (exMem (specRowStart 38 ((2 : Int) * (2 + 0)) 2 0 ((r : Int) + 1) + (c : Int)))) ∧
      outRow out (2 : Int).toNat 0 =
        ((List.range (2 : Int).toNat).map fun c : Nat =>
          symMap (exMem (38 + ((2 : Int) - 1) * (2 + 0) + (c : Int)))) ∧
      outRow out (2 : Int).toNat ((2 : Int).toNat - 1) =
        ((List.range (2 : Int).toNat).map fun c : Nat => symMap (exMem (38 + (c : Int)))) :=
  C2_row_order exMem 38 2 2 0 (by decide) (by decide) (by decide) (by decide)
    (by decide) (by decide) (by decide) (by decide)
